import Mathlib

/-!
Verification of the taskcluster-client messaging core against its
natural-language specification.

The repository contains two historical implementations of the messaging
subsystem:
  * `lib/pulselistener.js`  — `PulseConnection` (retry/backoff loop) and
    the prototype-style `PulseListener`;
  * `src/pulselistener.js` / `src/pulseconnection.js` — the ES6 rewrite;
plus `src/client.js` whose `_topic` builds routing-key patterns.

Below, each JavaScript function relevant to the claims is shallowly
embedded as an executable Lean definition.  JavaScript strings are Lean
`String`s; JS `undefined`/absent values are `Option`; JS exceptions are
`Option`/`Except` failures; external outcomes (broker dial results,
handler success, ack/nack transport success, the random slug, the
wall-clock reset-window test) are explicit parameters.
-/

namespace TCClient

/-! ## Primitive string operations

`jsSplit c s` embeds JavaScript `s.split(c)` for a single-character
separator, and `jsJoin c l` embeds `l.join(c)`.  They are written as
plain recursions over the character list so that their algebra can be
proved directly.  Note `"".split('.') = ['']` in JavaScript, which the
base case of `jsSplitAux` reproduces. -/

def jsSplitAux (c : Char) : List Char → List Char → List String
  | [], acc => [acc.reverse.asString]
  | x :: xs, acc =>
    if x = c then acc.reverse.asString :: jsSplitAux c xs []
    else jsSplitAux c xs (x :: acc)

def jsSplit (c : Char) (s : String) : List String :=
  jsSplitAux c s.toList []

def jsJoinChars (c : Char) : List String → List Char
  | [] => []
  | [s] => s.toList
  | s :: t :: rest => s.toList ++ c :: jsJoinChars c (t :: rest)

def jsJoin (c : Char) (l : List String) : String :=
  (jsJoinChars c l).asString

/-! ## Data model (spec §3, from the source) -/

/-- One dot-separated segment descriptor of a routing key
(`entry.routingKey[i]` in the JSON manifest consumed by `client.js`). -/
structure FieldSpec where
  name : String
  multipleWords : Bool
  constant : Option String
deriving Repr, DecidableEq

/-- A recorded binding (`PulseListener.prototype.bind` argument).
`routingKeyReference.isSome` models JS truthiness of the field. -/
structure Binding where
  exchange : String
  routingKeyPattern : String
  routingKeyReference : Option (List FieldSpec)
deriving Repr, DecidableEq

/-! ## Client._topic  (src/client.js lines 294-328)

`_topic(entry, routingKeyPattern)`: when the routing-key argument is an
object, each `FieldSpec` of `entry.routingKey` is turned into a segment:
the constant if the field has a (truthy) constant, else the caller's
value for the field name (strings must be dot-free unless the field is
multi-word — the `assert` is modelled as `Option` failure), else the
wildcard `#`/`*`.  When the argument is a string it is used verbatim. -/

/-- Models `const value = key.constant || routingKeyPattern[key.name]`:
a falsy (empty) constant falls through to the caller-supplied value. -/
def topicValueOf (f : FieldSpec) (values : String → Option String) : Option String :=
  match f.constant with
  | some c => if c = "" then values f.name else some c
  | none => values f.name

/-- One iteration of `_topic`'s `entry.routingKey.map(...)`.
`none` means the `assert` on a dotted non-multi-word value threw. -/
def buildSegment (f : FieldSpec) (values : String → Option String) : Option String :=
  match topicValueOf f values with
  | some v =>
    if f.multipleWords || !(v.toList.contains '.') then some v else none
  | none => some (if f.multipleWords then "#" else "*")

/-- Embeds `entry.routingKey.map(...)` — fails as soon as one segment's assert fires. -/
def buildSegments (ref : List FieldSpec) (values : String → Option String) :
    Option (List String) :=
  match ref with
  | [] => some []
  | f :: fs =>
    match buildSegment f values, buildSegments fs values with
    | some s, some ss => some (s :: ss)
    | _, _ => none

/-- The `.map(...).join('.')` step of `_topic`. -/
def topicPattern (ref : List FieldSpec) (values : String → Option String) :
    Option String :=
  (buildSegments ref values).map (jsJoin '.')

/-- One manifest entry, as far as `_topic` reads it. -/
structure Entry where
  exchange : String
  routingKey : List FieldSpec
deriving Repr, DecidableEq

/-- The routing-key argument of `_topic`: a string, or an object mapping
field names to values. -/
inductive RoutingKeyArg
  | str (s : String)
  | values (v : String → Option String)

/-- The object `_topic` returns. -/
structure TopicResult where
  exchange : String
  routingKeyPattern : String
  routingKeyReference : List FieldSpec
deriving Repr, DecidableEq

/-- Embedding of `Client._topic` (src/client.js 294-328).  `none` models the assert
throwing while building the pattern from an object argument; a string
argument is passed through verbatim with no per-field processing. -/
def topic (exchangePrefix : String) (entry : Entry) (arg : RoutingKeyArg) :
    Option TopicResult :=
  match arg with
  | .str s => some ⟨exchangePrefix ++ entry.exchange, s, entry.routingKey⟩
  | .values v =>
    (topicPattern entry.routingKey v).map
      (fun p => ⟨exchangePrefix ++ entry.exchange, p, entry.routingKey⟩)

/-! ## Routing-key parse  (lib/pulselistener.js 455-494, src/pulselistener.js 171-221)

The JS walks the reference from the front consuming `keys.shift()` per
non-multi-word field, then (if it stopped at a multi-word field) from the
back consuming `keys.pop()`, asserts the two walks met at the same index,
and assigns the remaining segments re-joined with `.` to the multi-word
field.  `keys.shift()`/`keys.pop()` on an exhausted array yield
`undefined` (`Option.none` here) without throwing; the only throw is the
`assert(i == j)`. -/

/-- The front walk (`for (i...) { ...; routing[ref.name] = keys.shift() }`).
Returns (assignments in insertion order, remaining keys, remaining fields
starting at the first multi-word field). -/
def walkFront : List FieldSpec → List String →
    List (String × Option String) × List String × List FieldSpec
  | [], keys => ([], keys, [])
  | f :: fs, keys =>
    if f.multipleWords then ([], keys, f :: fs)
    else
      let r := walkFront fs keys.tail
      ((f.name, keys.head?) :: r.1, r.2)

/-- The back walk (`for (j = n-1; j > i; j--) { routing[ref.name] = keys.pop() }`),
applied to the reversed field suffix after the first multi-word field.
Returns (assignments in insertion order, remaining keys, fields left
unconsumed because a second multi-word field was hit). -/
def walkBack : List FieldSpec → List String →
    List (String × Option String) × List String × List FieldSpec
  | [], keys => ([], keys, [])
  | f :: fs, keys =>
    if f.multipleWords then ([], keys, f :: fs)
    else
      let r := walkBack fs keys.dropLast
      ((f.name, keys.getLast?) :: r.1, r.2)

/-- The routing-key parse.  `none` models the `assert(i == j)` firing (it
is the only exception the JS block can raise); the caller catches it and
omits `message.routing`.  A successful parse returns the `routing` object
as an insertion-ordered association list (later entries shadow earlier
ones, as in a JS object). -/
def parseRoutingKey (ref : List FieldSpec) (key : String) :
    Option (List (String × Option String)) :=
  let keys := jsSplit '.' key
  let fr := walkFront ref keys
  match fr.2.2 with
  | [] => some fr.1
  | multi :: tail =>
    let bk := walkBack tail.reverse fr.2.1
    match bk.2.2 with
    | [] => some (fr.1 ++ bk.1 ++ [(multi.name, some (jsJoin '.' bk.2.1))])
    | _ :: _ => none

/-- Property lookup on the built `routing` object: the last write to a
key wins, as for a JavaScript object.  `some none` would mean the key was
written with `undefined` (an exhausted `shift`/`pop`). -/
def objGet (l : List (String × Option String)) (k : String) :
    Option (Option String) :=
  ((l.filter (fun p => p.1 = k)).getLast?).map (fun p => p.2)

/-! ## Binding-reference selection in `_handle` -/

/-- lib/pulselistener.js 446-452: `_bindings.forEach(...)` keeps
overwriting `routingKeyReference` with every matching binding that has a
reference, so the *last* match wins. -/
def findRefLib (bindings : List Binding) (exchange : String) :
    Option (List FieldSpec) :=
  bindings.foldl
    (fun acc b =>
      if b.exchange = exchange && b.routingKeyReference.isSome then
        b.routingKeyReference
      else acc)
    none

/-- The value the src-version reduce callback produces for one binding:
`binding.exchange === exchange && binding.routingKeyReference ?
 binding.routingKeyReference : null`. -/
inductive JsRefValue
  | binding (b : Binding)
  | ref (r : List FieldSpec)
  | nullv
deriving Repr, DecidableEq

/-- The reduce callback of src/pulselistener.js 164-168 (it ignores its
accumulator entirely). -/
def srcReduceStep (exchange : String) (b : Binding) : JsRefValue :=
  if b.exchange = exchange && b.routingKeyReference.isSome then
    match b.routingKeyReference with
    | some r => .ref r
    | none => .nullv
  else .nullv

/-- src/pulselistener.js 164-168: `_bindings.reduce(...)` *without an
initial accumulator*: on an empty list it throws (`none` here); on a
single binding it returns the binding object itself; otherwise the result
is determined solely by the final binding. -/
def findRefSrc (bindings : List Binding) (exchange : String) :
    Option JsRefValue :=
  match bindings with
  | [] => none
  | b :: rest =>
    some (rest.foldl (fun _ b2 => srcReduceStep exchange b2) (.binding b))

/-! ## Delivery pipeline (`_handle`) -/

/-- CC-header route extraction: keep entries matching `/^route\.(.*)$/`
and strip the prefix (lib 434-444, src 160-163). -/
def extractRoutes (cc : Option (List String)) : List String :=
  match cc with
  | none => []
  | some l =>
    l.filterMap (fun r =>
      if r.startsWith "route." then some (r.drop 6) else none)

/-- The raw delivery handed to `_handle` by the broker library.
`payload?` is the outcome of `JSON.parse(msg.content.toString('utf8'))`:
`none` when the wire body is not valid UTF-8 JSON (`JSON.parse` throws);
the parsed value itself is opaque to every claim, so it is carried as the
decoded text. -/
structure Delivery where
  payload? : Option String
  exchange : String
  routingKey : String
  redelivered : Bool
  cc : Option (List String)
deriving Repr, DecidableEq

/-- The decoded message passed to the registered `message` handlers. -/
structure Message where
  payload : String
  exchange : String
  routingKey : String
  redelivered : Bool
  routes : List String
  routing : Option (List (String × Option String))
deriving Repr, DecidableEq

/-- Message construction in `_handle` (lib 425-494): metadata copy, CC
route extraction, reference lookup and routing-key parse; a parse
failure is swallowed and `routing` omitted. -/
def buildMessage (bindings : List Binding) (d : Delivery) (p : String) : Message :=
  { payload := p
    exchange := d.exchange
    routingKey := d.routingKey
    redelivered := d.redelivered
    routes := extractRoutes d.cc
    routing :=
      match findRefLib bindings d.exchange with
      | some r => parseRoutingKey r d.routingKey
      | none => none }

/-- A settle operation issued on the channel. -/
inductive SettleOp
  | ack
  | nackRequeue
  | nackDrop
deriving Repr, DecidableEq

/-- The nack flavour chosen in the first catch:
`nack(msg, false, false)` when redelivered, `nack(msg, false, true)`
otherwise (lib 512-519, src 234-239). -/
def nackOp (redelivered : Bool) : SettleOp :=
  if redelivered then .nackDrop else .nackRequeue

/-- Outcome of the settle chain: the channel operations attempted (in
order, each with whether the broker call succeeded) and whether the
listener emitted `error` (the final catch, lib 520-523 / src 241-244). -/
structure SettleResult where
  ops : List (SettleOp × Bool)
  errorEmitted : Bool
deriving Repr, DecidableEq

/-- The settle chain of `_handle`:
`Promise.all(handlers).then(() => ack).catch(err => nack...).catch(err => emit('error'))`.
`handlersOk` is whether every registered handler fulfilled; `ackOk` /
`nackOk` are whether the respective channel call succeeds when issued.
Note the first catch receives *both* handler failures and a failed ack,
so a failed ack is followed by a nack attempt, and `error` is emitted
only when a nack attempt itself fails.

`invalidated` is lib `_handle`'s `channel.__invalidated` test at the top
of the first catch (lib 506-511): when a reconnect invalidated the
channel, the catch returns after a debug line — no nack is issued and,
the first catch having resolved, the second catch never emits `error`.
The ack in the `.then` is *not* guarded, so with all handlers succeeding
it is still attempted on an invalidated channel.  The src implementation
has no such check and always behaves as `invalidated = false`. -/
def settle (handlersOk redelivered invalidated ackOk nackOk : Bool) : SettleResult :=
  if handlersOk then
    if ackOk then ⟨[(.ack, true)], false⟩
    else if invalidated then ⟨[(.ack, false)], false⟩
    else if nackOk then ⟨[(.ack, false), (nackOp redelivered, true)], false⟩
    else ⟨[(.ack, false), (nackOp redelivered, false)], true⟩
  else if invalidated then ⟨[], false⟩
  else if nackOk then ⟨[(nackOp redelivered, true)], false⟩
  else ⟨[(nackOp redelivered, false)], true⟩

/-- The `_handle` pipeline end to end.  `JSON.parse` sits at the top of the function
outside any try/catch (lib 427, src 156), so an undecodable body raises
out of `_handle` before any channel operation: `Except.error ()` with no
settle ops.  Otherwise the message is built and the settle chain runs. -/
def processDelivery (bindings : List Binding) (d : Delivery)
    (handlersOk invalidated ackOk nackOk : Bool) :
    Except Unit (Message × SettleResult) :=
  match d.payload? with
  | none => .error ()
  | some p =>
    .ok (buildMessage bindings d p,
      settle handlersOk d.redelivered invalidated ackOk nackOk)

/-! ## PulseConnection retry loop (lib/pulselistener.js 113-194) -/

/-- Embedding of `PulseConnection.prototype._rethrowOrRetry` (lib 178-194).
`windowElapsed` is `Date.now() - this._lastReconnect > retryResetTime`.
The counter is set to `-1` when the window elapsed, then the new failure
is counted (`+= 1`); the error is rethrown (`none`) when the counter
exceeds `retries`, else the updated counter is returned. -/
def rethrowOrRetry (windowElapsed : Bool) (attempts retries : Int) : Option Int :=
  let a := (if windowElapsed then (-1 : Int) else attempts) + 1
  if a > retries then none else some a

/-- Outcome of one `connect()` call.  `fatal d` means the inner loop made
`d` dial attempts and rethrew: the outer `.catch` (lib 150-154) then
clears `_connecting`, emits `error` once, and makes no further attempts.
`success d` means the `d`-th dial connected. -/
inductive ConnectResult
  | success (dials : Nat)
  | fatal (dials : Nat)
deriving Repr, DecidableEq

/-- The recursive inner `connect` function of
`PulseConnection.prototype.connect` (lib 119-148), counting dial
attempts.  `dialOk i` is whether the `i`-th `amqplib.connect` fulfils;
`windowElapsed i` is whether the retry-reset window had elapsed when the
`i`-th dial failed.  The backoff sleep changes only timing, not the
attempt count, and is elided.  Fuel bounds the recursion; a result
`some _` is fuel-independent and reflects the loop terminating on its
own. -/
def connectRun : Nat → Int → Int → (Nat → Bool) → (Nat → Bool) → Nat →
    Option ConnectResult
  | 0, _, _, _, _, _ => none
  | fuel + 1, retries, attempts, dialOk, windowElapsed, i =>
    if dialOk i then some (.success 1)
    else
      match rethrowOrRetry (windowElapsed i) attempts retries with
      | none => some (.fatal 1)
      | some a =>
        (connectRun fuel retries a dialOk windowElapsed (i + 1)).map
          (fun r =>
            match r with
            | .success d => .success (d + 1)
            | .fatal d => .fatal (d + 1))

/-- A dial schedule on which every attempt fails. -/
def allFail : Nat → Bool := fun _ => false

/-- A clock schedule on which the retry-reset window never elapses. -/
def noReset : Nat → Bool := fun _ => false

/-! ## Listener binding bookkeeping (lib 322-340, src 78-87) -/

/-- The slice of listener state `bind` touches. -/
structure ListenerBindState where
  bindings : List Binding
  connected : Bool
deriving Repr, DecidableEq

/-- Embedding of `PulseListener.bind`: `this._bindings.push(binding)` happens first,
unconditionally; the broker-level `bindQueue` is issued only when a
channel exists, and its outcome never touches `_bindings`.  Returns the
new state and whether a broker-level bind was issued. -/
def listenerBind (st : ListenerBindState) (b : Binding) :
    ListenerBindState × Bool :=
  ({ st with bindings := st.bindings ++ [b] }, st.connected)

/-- Events of one `bind` call in temporal order. -/
inductive BindEvent
  | recorded (b : Binding)
  | brokerBind (queue exchange pattern : String)
deriving Repr, DecidableEq

/-- The temporal event trace of one `bind` call: the binding is recorded
before any broker-level bind is attempted. -/
def listenerBindEvents (queueName : String) (st : ListenerBindState)
    (b : Binding) : List BindEvent :=
  .recorded b ::
    (if st.connected then [.brokerBind queueName b.exchange b.routingKeyPattern]
     else [])

/-- A failed (or successful) broker-level `bindQueue` leaves the recorded
bindings untouched: no code path removes from `_bindings`. -/
def afterBrokerBindOutcome (st : ListenerBindState) (_ok : Bool) :
    ListenerBindState :=
  st

/-- The `connect()` call applies every recorded binding in order
(lib 377-389 `that._bindings.map(...)`, src 125). -/
def connectBindCalls (st : ListenerBindState) : List Binding :=
  st.bindings

/-! ## Queue naming (lib 288-293 constructor, src 109-123 connect) -/

/-- lib constructor: `['queue', ns, options.queueName || 'exclusive/' + slugid.v4()].join('/')`.
Computed once at construction and never reassigned. -/
def libQueueName (ns : String) (queueName : Option String) (slug : String) : String :=
  "queue/" ++ ns ++ "/" ++
    (match queueName with
     | some q => if q = "" then "exclusive/" ++ slug else q
     | none => "exclusive/" ++ slug)

/-- The src `connect()` template literal building the queue name
(queue, then the namespace, then the queue name or the word exclusive,
then a fresh slugid.v4) — a fresh random slug is appended on *every*
connect, named queue or not. -/
def srcQueueName (ns : String) (queueName : Option String) (slug : String) : String :=
  "queue/" ++ ns ++ "/" ++
    (match queueName with
     | some q => if q = "" then "exclusive" else q
     | none => "exclusive") ++ "/" ++ slug

/-- The slice of src-listener state relevant to queue naming. -/
structure SrcListenerState where
  queueName : Option String
  channel : Bool
deriving Repr, DecidableEq

/-- src `connect()` (109-123): memoized on `_channel`; when there is no
channel it recomputes `_queueName` with a fresh slug and establishes a
channel. -/
def srcConnect (ns : String) (qopt : Option String) (st : SrcListenerState)
    (slug : String) : SrcListenerState :=
  if st.channel then st
  else { queueName := some (srcQueueName ns qopt slug), channel := true }

/-- Channel loss (error/reconnect): `this._channel = null`. -/
def channelLost (st : SrcListenerState) : SrcListenerState :=
  { st with channel := false }

/-- Effective namespace of a `PulseConnection` (lib 76-97): the explicit
`namespace` option if truthy, else the `username` option if truthy, else
the username parsed from the connection-string auth part. -/
def connNamespace (ns user csUser : Option String) : String :=
  let v := match ns with
    | some n => n
    | none => user.getD ""
  if v = "" then csUser.getD "" else v

/-! # Theorems -/

/-! ## String split/join algebra -/

theorem asString_toList (s : String) : s.toList.asString = s := rfl

theorem toList_asString (l : List Char) : l.asString.toList = l := rfl

theorem asString_data (s : String) : s.data.asString = s := rfl

theorem data_asString (l : List Char) : l.asString.data = l := rfl

theorem jsSplitAux_append (c : Char) (xs : List Char) (l : List Char)
    (acc : List Char) (h : c ∉ xs) :
    jsSplitAux c (xs ++ l) acc = jsSplitAux c l (xs.reverse ++ acc) := by
  induction xs generalizing acc with
  | nil => simp
  | cons x xs ih =>
    have hx : ¬ x = c := fun hc => h (hc ▸ List.mem_cons_self x xs)
    have hxs : c ∉ xs := fun hc => h (List.mem_cons_of_mem _ hc)
    simp only [List.cons_append, jsSplitAux, if_neg hx, List.append_eq]
    rw [ih (x :: acc) hxs]
    simp [List.reverse_cons, List.append_assoc]

/-- JavaScript `join('.')` followed by `split('.')` is the identity on a
nonempty list of separator-free segments. -/
theorem jsSplit_jsJoin (c : Char) (segs : List String) (hne : segs ≠ [])
    (hfree : ∀ s ∈ segs, c ∉ s.toList) :
    jsSplit c (jsJoin c segs) = segs := by
  induction segs with
  | nil => exact absurd rfl hne
  | cons s rest ih =>
    cases rest with
    | nil =>
      have hfs : c ∉ s.toList := hfree s (List.mem_cons_self s [])
      calc jsSplit c (jsJoin c [s])
          = jsSplitAux c (s.toList ++ []) [] := by
            simp [jsSplit, jsJoin, jsJoinChars, data_asString, String.toList]
        _ = jsSplitAux c [] (s.toList.reverse ++ []) :=
            jsSplitAux_append c s.toList [] [] hfs
        _ = [s] := by simp [jsSplitAux, asString_data, String.toList]
    | cons t rest' =>
      have hfs : c ∉ s.toList := hfree s (List.mem_cons_self s _)
      have key : jsSplit c (jsJoin c (s :: t :: rest')) =
          s :: jsSplit c (jsJoin c (t :: rest')) := by
        calc jsSplit c (jsJoin c (s :: t :: rest'))
            = jsSplitAux c (s.toList ++ (c :: jsJoinChars c (t :: rest'))) [] := by
              simp [jsSplit, jsJoin, jsJoinChars, data_asString, String.toList]
          _ = jsSplitAux c (c :: jsJoinChars c (t :: rest'))
                (s.toList.reverse ++ []) :=
              jsSplitAux_append c s.toList _ [] hfs
          _ = s :: jsSplitAux c (jsJoinChars c (t :: rest')) [] := by
              simp [jsSplitAux, asString_data, String.toList]
          _ = s :: jsSplit c (jsJoin c (t :: rest')) := by
              simp [jsSplit, jsJoin, data_asString, String.toList]
      rw [key, ih (by simp) (fun x hx => hfree x (List.mem_cons_of_mem _ hx))]

/-! ## Claim C1 -/

/-- C1 counterexample: all handlers succeed, the `channel.ack` call
fails, the message is not redelivered, the channel is not invalidated,
and the fallback nack succeeds.  The claim says a failing ack call makes
the listener emit `error`; the code instead routes the ack failure into
the nack branch of the first catch, and since that nack succeeds no
`error` event is emitted. -/
theorem c1_counterexample :
    (settle true false false false true).ops.head? = some (.ack, false) ∧
    (settle true false false false true).errorEmitted = false := by decide

/-- C1 (amended): after the handlers settle, if every handler succeeded
the delivery is acked exactly once (when the ack succeeds, nothing else
happens); on a channel that was not invalidated by a reconnect, if at
least one handler failed the delivery is nacked — with requeue when
`redelivered` is false and without requeue when it is true — a *failed
ack* is handled like a handler failure (a nack with the same redelivered
rule follows it), and an `error` event is emitted exactly when a nack
call itself fails; on the lib path with the channel invalidated
(`channel.__invalidated`, lib 506-511) the first catch returns early:
after a handler failure or a failed ack no nack is issued and no `error`
is emitted (the src implementation has no invalidation check, i.e.
always takes the `invalidated = false` branches). -/
theorem c1_settle_amended
    (handlersOk redelivered invalidated ackOk nackOk : Bool) :
    (handlersOk = true → ackOk = true →
      settle handlersOk redelivered invalidated ackOk nackOk =
        ⟨[(.ack, true)], false⟩) ∧
    (handlersOk = false → invalidated = false →
      settle handlersOk redelivered invalidated ackOk nackOk =
        ⟨[(nackOp redelivered, nackOk)], !nackOk⟩) ∧
    (handlersOk = true → ackOk = false → invalidated = false →
      settle handlersOk redelivered invalidated ackOk nackOk =
        ⟨[(.ack, false), (nackOp redelivered, nackOk)], !nackOk⟩) ∧
    (handlersOk = false → invalidated = true →
      settle handlersOk redelivered invalidated ackOk nackOk =
        ⟨[], false⟩) ∧
    (handlersOk = true → ackOk = false → invalidated = true →
      settle handlersOk redelivered invalidated ackOk nackOk =
        ⟨[(.ack, false)], false⟩) := by
  revert handlersOk redelivered invalidated ackOk nackOk
  decide

/-- Witness for `c1_settle_amended`: a redelivered message with a failing
handler on a valid channel is nacked without requeue and no error is
emitted. -/
theorem c1_settle_amended_witness :
    settle false true false true true = ⟨[(nackOp true, true)], !true⟩ :=
  (c1_settle_amended false true false true true).2.1 rfl rfl

/-! ## Claim C2 -/

theorem connectRun_allFail_fatal (r : Int) :
    ∀ (d fuel : Nat), d + 1 ≤ fuel → ∀ (a : Int), a + d = r → ∀ (i : Nat),
    connectRun fuel r a allFail noReset i = some (.fatal (d + 1)) := by
  intro d
  induction d with
  | zero =>
    intro fuel hf a ha i
    obtain ⟨f, rfl⟩ : ∃ f, fuel = f + 1 := ⟨fuel - 1, by omega⟩
    have ha' : a = r := by omega
    subst ha'
    have hgt : a + 1 > a := by omega
    simp [connectRun, allFail, noReset, rethrowOrRetry, hgt]
  | succ d ih =>
    intro fuel hf a ha i
    obtain ⟨f, rfl⟩ : ∃ f, fuel = f + 1 := ⟨fuel - 1, by omega⟩
    have hle : ¬ (a + 1 > r) := by omega
    simp only [connectRun, allFail, noReset, rethrowOrRetry, if_false,
      Bool.false_eq_true, if_neg hle]
    rw [ih f (by omega) (a + 1) (by omega) (i + 1)]
    rfl

/-- C2: with retry budget `r`, a connection that fails on every dial
attempt (and whose retry-reset window never elapses) makes exactly
`r + 1` attempts before the error is rethrown out of the loop — at which
point the outer catch emits a fatal `error` and no further attempts
occur (the result is independent of any extra fuel `k`).  In particular
`retries = 2` yields 3 attempts and `retries = 0` yields 1 attempt. -/
theorem c2_retry_budget (r k : Nat) :
    connectRun (r + 2 + k) r 0 allFail noReset 0 = some (.fatal (r + 1)) ∧
    connectRun 4 2 0 allFail noReset 0 = some (.fatal 3) ∧
    connectRun 2 0 0 allFail noReset 0 = some (.fatal 1) := by
  refine ⟨?_, by decide, by decide⟩
  exact connectRun_allFail_fatal r r (r + 2 + k) (by omega) 0 (by omega) 0

/-! ## Claim C3 -/

/-- C3: whenever the retry-reset window has elapsed, `_rethrowOrRetry`
resets the attempt counter before the new failure is counted: whatever
the previous counter `a` was — in particular `a = retries + 1`, a
previously exhausted budget — the new failure leaves the counter at 0
and is retried (`some`), never rethrown as fatal (`none`), for every
retry budget `r ≥ 0`. -/
theorem c3_reset_window (r : Nat) (a : Int) :
    rethrowOrRetry true a r = some 0 ∧
    rethrowOrRetry true ((r : Int) + 1) r = some 0 := by
  have h : ¬ ((-1 : Int) + 1 > (r : Int)) := by omega
  constructor <;> simp [rethrowOrRetry, h]

/-! ## Claim C4 -/

/-- C4 (code bug): `JSON.parse` sits at the top of `_handle` outside any
try/catch in both implementations, so a delivery whose wire body is not
valid UTF-8 JSON raises out of `_handle` before any channel operation:
the delivery is neither acked nor nacked — it is left pending,
contradicting the spec's requirement that it be settled deterministically
(nack-without-requeue as the safe default). -/
theorem c4_decode_failure_unsettled (bindings : List Binding)
    (ex key : String) (red : Bool) (cc : Option (List String))
    (handlersOk invalidated ackOk nackOk : Bool) :
    processDelivery bindings ⟨none, ex, key, red, cc⟩
      handlersOk invalidated ackOk nackOk = .error () := rfl

/-! ## Claim C5 -/

/-- C5 counterexample: two recorded bindings match the delivery's
exchange `"E"` and both carry a reference; the reference selected by the
lib `forEach` loop (and by the src `reduce`) is the *second* binding's
reference, not the first's as the claim states. -/
theorem c5_counterexample :
    findRefLib
      [⟨"E", "p1", some [⟨"x", false, none⟩]⟩,
       ⟨"E", "p2", some [⟨"y", false, none⟩]⟩] "E" =
      some [⟨"y", false, none⟩] ∧
    (some [FieldSpec.mk "y" false none] ≠ some [FieldSpec.mk "x" false none]) ∧
    findRefSrc
      [⟨"E", "p1", some [⟨"x", false, none⟩]⟩,
       ⟨"E", "p2", some [⟨"y", false, none⟩]⟩] "E" =
      some (.ref [⟨"y", false, none⟩]) := by decide

theorem findRefLib_foldl (ex : String) (l : List Binding)
    (acc : Option (List FieldSpec)) :
    l.foldl
      (fun acc b =>
        if b.exchange = ex && b.routingKeyReference.isSome then
          b.routingKeyReference
        else acc) acc =
      match l.reverse.find?
          (fun b => b.exchange = ex && b.routingKeyReference.isSome) with
      | some b => b.routingKeyReference
      | none => acc := by
  induction l generalizing acc with
  | nil => rfl
  | cons b l ih =>
    simp only [List.foldl_cons, List.reverse_cons, List.find?_append]
    rw [ih]
    cases hfind : l.reverse.find?
        (fun b => b.exchange = ex && b.routingKeyReference.isSome) with
    | some b' => simp [Option.or]
    | none =>
      by_cases hb : (b.exchange = ex && b.routingKeyReference.isSome) = true
      · simp [Option.or, List.find?, hb]
      · simp [Option.or, List.find?, hb]

/-- C5 (amended): in the lib implementation the reference used is that of
the *last* binding in binding order that matches the exchange and carries
a reference (the `forEach` keeps overwriting).  In the src implementation
(with at least two recorded bindings) the accumulator-free `reduce` makes
the result depend solely on the final recorded binding: its reference if
that final binding matches, and `null` otherwise — even when an earlier
binding matches. -/
theorem c5_last_binding_amended (bindings : List Binding) (ex : String)
    (b0 blast : Binding) (mid : List Binding) :
    (findRefLib bindings ex =
      match bindings.reverse.find?
          (fun b => b.exchange = ex && b.routingKeyReference.isSome) with
      | some b => b.routingKeyReference
      | none => none) ∧
    findRefSrc (b0 :: mid ++ [blast]) ex = some (srcReduceStep ex blast) := by
  refine ⟨findRefLib_foldl ex bindings none, ?_⟩
  simp [findRefSrc, List.foldl_append]

/-! ## Claim C8 -/

/-- C8 counterexample: in the src implementation a *named* queue's name
gets a random slug appended (`queue/ns/myq/s1`, not `queue/ns/myq`), and
a reconnect (channel loss followed by `connect()` with a fresh slug)
changes the queue name — it is neither of the claimed form nor stable
across reconnects. -/
theorem c8_counterexample :
    srcQueueName "ns" (some "myq") "s1" ≠ "queue/ns/myq" ∧
    srcQueueName "ns" (some "myq") "s1" ≠ srcQueueName "ns" (some "myq") "s2" ∧
    (srcConnect "ns" (some "myq")
        (channelLost (srcConnect "ns" (some "myq") ⟨none, false⟩ "s1")) "s2").queueName ≠
      (srcConnect "ns" (some "myq") ⟨none, false⟩ "s1").queueName := by decide

/-- C8 (amended): in the lib implementation the name is computed once in
the constructor and never reassigned — `queue/<ns>/<name>` for named
queues (no random part) and `queue/<ns>/exclusive/<random-id>` for
anonymous ones.  In the src implementation every `connect()` on a
channel-less listener regenerates the name with a fresh random slug —
`queue/<ns>/<name>/<random-id>` for named queues and
`queue/<ns>/exclusive/<random-id>` for anonymous ones — so the name
changes across reconnects.  `<ns>` defaults to the connecting
username. -/
theorem c8_queue_name_amended (ns q slug : String) (hq : q ≠ "") :
    libQueueName ns (some q) slug = "queue/" ++ ns ++ "/" ++ q ∧
    libQueueName ns none slug = "queue/" ++ ns ++ "/" ++ "exclusive/" ++ slug ∧
    srcQueueName ns (some q) slug = "queue/" ++ ns ++ "/" ++ q ++ "/" ++ slug ∧
    srcQueueName ns none slug = "queue/" ++ ns ++ "/" ++ "exclusive" ++ "/" ++ slug ∧
    (∀ st : SrcListenerState, st.channel = false →
      (srcConnect ns (some q) st slug).queueName =
        some (srcQueueName ns (some q) slug)) ∧
    connNamespace none (some q) (some q) = q := by
  refine ⟨by simp [libQueueName, hq], ?_, by simp [srcQueueName, hq], rfl, ?_, ?_⟩
  · show "queue/" ++ ns ++ "/" ++ ("exclusive/" ++ slug) =
      "queue/" ++ ns ++ "/" ++ "exclusive/" ++ slug
    rw [String.append_assoc ("queue/" ++ ns ++ "/")]
  · intro st hst
    simp [srcConnect, hst]
  · simp [connNamespace, hq]

/-- Witness for `c8_queue_name_amended` at a concrete named queue. -/
theorem c8_queue_name_amended_witness :
    ("myq" : String) ≠ "" ∧
    libQueueName "ns" (some "myq") "s1" = "queue/" ++ "ns" ++ "/" ++ "myq" :=
  ⟨by decide, (c8_queue_name_amended "ns" "myq" "s1" (by decide)).1⟩

/-! ## Claim C9 -/

/-- C9: `bind` appends the binding to `_bindings` before any broker-level
bind is attempted (first event of the call trace is the recording); the
recorded sequence grows by exactly one entry per call, duplicates
included; a failed broker-level `bindQueue` leaves the recorded sequence
untouched; and the next `connect()` applies the newly recorded binding
along with all earlier ones, in order. -/
theorem c9_bind_records_first (st : ListenerBindState) (b : Binding)
    (qn : String) (ok : Bool) :
    (listenerBind st b).1.bindings = st.bindings ++ [b] ∧
    (listenerBind st b).1.bindings.length = st.bindings.length + 1 ∧
    afterBrokerBindOutcome (listenerBind st b).1 ok = (listenerBind st b).1 ∧
    connectBindCalls (afterBrokerBindOutcome (listenerBind st b).1 ok) =
      st.bindings ++ [b] ∧
    (listenerBindEvents qn st b).head? = some (.recorded b) :=
  ⟨rfl, by simp [listenerBind], rfl, rfl, rfl⟩

/-! ## Claim C10 -/

/-- C10: when `_topic` receives a string as the routing-key argument it
is returned verbatim as `routingKeyPattern` — no per-field processing
happens, in particular a dot inside the string is not rejected (the same
dotted value supplied through the object form trips the assert and
fails) — while the exchange is still prefixed with `exchangePrefix` and
the routing-key reference is still attached. -/
theorem c10_topic_string_passthrough :
    (∀ (pre : String) (entry : Entry) (s : String),
      topic pre entry (.str s) =
        some ⟨pre ++ entry.exchange, s, entry.routingKey⟩) ∧
    topic "p/" ⟨"ex", [⟨"a", false, none⟩]⟩ (.str "x.y") =
      some ⟨"p/ex", "x.y", [⟨"a", false, none⟩]⟩ ∧
    topic "p/" ⟨"ex", [⟨"a", false, none⟩]⟩ (.values (fun _ => some "x.y")) =
      none := by
  refine ⟨fun pre entry s => rfl, by decide, by decide⟩

/-! ## Claim C7 -/

theorem walkFront_rest (ref : List FieldSpec) (keys : List String) :
    (walkFront ref keys).2.2 = ref.dropWhile (fun f => !f.multipleWords) := by
  induction ref generalizing keys with
  | nil => rfl
  | cons f fs ih =>
    by_cases hf : f.multipleWords = true
    · simp [walkFront, hf, List.dropWhile_cons]
    · simp only [Bool.not_eq_true] at hf
      simp [walkFront, hf, List.dropWhile_cons, ih]

theorem walkBack_rest (ref : List FieldSpec) (keys : List String) :
    (walkBack ref keys).2.2 = ref.dropWhile (fun f => !f.multipleWords) := by
  induction ref generalizing keys with
  | nil => rfl
  | cons f fs ih =>
    by_cases hf : f.multipleWords = true
    · simp [walkBack, hf, List.dropWhile_cons]
    · simp only [Bool.not_eq_true] at hf
      simp [walkBack, hf, List.dropWhile_cons, ih]

/-- With two or more multi-word fields in the reference, the back walk
stops at a second multi-word field, the `assert(i == j)` fires, and the
parse raises (`none`). -/
theorem parseRoutingKey_two_multi (ref : List FieldSpec) (key : String)
    (h : 2 ≤ (ref.filter (fun f => f.multipleWords)).length) :
    parseRoutingKey ref key = none := by
  have hsplit := List.takeWhile_append_dropWhile
    (fun f => !f.multipleWords) ref
  have htake : (ref.takeWhile (fun f => !f.multipleWords)).filter
      (fun f => f.multipleWords) = [] := by
    rw [List.filter_eq_nil_iff]
    intro a ha
    have := List.mem_takeWhile_imp ha
    simp only [Bool.not_eq_true'] at this
    simp [this]
  have hdrop : 2 ≤ ((ref.dropWhile (fun f => !f.multipleWords)).filter
      (fun f => f.multipleWords)).length := by
    have hfa : ref.filter (fun f => f.multipleWords) =
        (ref.takeWhile (fun f => !f.multipleWords)).filter
          (fun f => f.multipleWords) ++
        (ref.dropWhile (fun f => !f.multipleWords)).filter
          (fun f => f.multipleWords) := by
      rw [← List.filter_append, hsplit]
    rw [hfa, htake, List.nil_append] at h
    exact h
  cases hD : ref.dropWhile (fun f => !f.multipleWords) with
  | nil => rw [hD] at hdrop; simp at hdrop
  | cons m tail =>
    have htail : 1 ≤ (tail.filter (fun f => f.multipleWords)).length := by
      rw [hD, List.filter_cons] at hdrop
      split at hdrop
      · simp only [List.length_cons] at hdrop; omega
      · omega
    obtain ⟨g, hg, hgm⟩ : ∃ g ∈ tail, g.multipleWords = true := by
      cases hF : tail.filter (fun f => f.multipleWords) with
      | nil => rw [hF] at htail; simp at htail
      | cons g gs =>
        have hmem : g ∈ tail.filter (fun f => f.multipleWords) := by
          rw [hF]; exact List.mem_cons_self g gs
        exact ⟨g, (List.mem_filter.mp hmem).1, (List.mem_filter.mp hmem).2⟩
    have hback : tail.reverse.dropWhile (fun f => !f.multipleWords) ≠ [] := by
      intro hnil
      have hall := List.dropWhile_eq_nil_iff.mp hnil
      have := hall g (List.mem_reverse.mpr hg)
      simp [hgm] at this
    simp only [parseRoutingKey]
    rw [walkFront_rest, hD]
    cases hE : tail.reverse.dropWhile (fun f => !f.multipleWords) with
    | nil => exact absurd hE hback
    | cons m2 t2 =>
      have hW : (walkBack tail.reverse
          (walkFront ref (jsSplit '.' key)).2.1).2.2 = m2 :: t2 :=
        (walkBack_rest _ _).trans hE
      simp [hW]

/-- C7: a routing-key reference containing two or more multi-word fields
is treated as malformed: the `assert(i == j)` guard fires (the parse
returns `none` instead of misattributing segments), so `routing` is
omitted from the message — and the failure never aborts delivery: the
handlers are still invoked on the message (with `routing` absent) and the
normal settle chain runs. -/
theorem c7_multiword_guard (refR : List FieldSpec) (key : String)
    (h : 2 ≤ (refR.filter (fun f => f.multipleWords)).length) :
    parseRoutingKey refR key = none ∧
    ∀ (pat payload ex : String)
      (red handlersOk invalidated ackOk nackOk : Bool)
      (cc : Option (List String)),
      processDelivery [⟨ex, pat, some refR⟩] ⟨some payload, ex, key, red, cc⟩
          handlersOk invalidated ackOk nackOk =
        .ok ({ payload := payload, exchange := ex, routingKey := key,
               redelivered := red, routes := extractRoutes cc, routing := none },
             settle handlersOk red invalidated ackOk nackOk) := by
  have hp := parseRoutingKey_two_multi refR key h
  refine ⟨hp, fun pat payload ex red handlersOk invalidated ackOk nackOk cc => ?_⟩
  simp [processDelivery, buildMessage, findRefLib, hp]

/-- Witness for `c7_multiword_guard`: a concrete reference with two
multi-word fields parses to nothing. -/
theorem c7_multiword_guard_witness :
    2 ≤ (([⟨"m1", true, none⟩, ⟨"m2", true, none⟩] : List FieldSpec).filter
      (fun f => f.multipleWords)).length ∧
    parseRoutingKey [⟨"m1", true, none⟩, ⟨"m2", true, none⟩] "a.b" = none :=
  ⟨by decide,
   (c7_multiword_guard [⟨"m1", true, none⟩, ⟨"m2", true, none⟩] "a.b"
     (by decide)).1⟩

/-! ## Claim C6 -/

theorem objGet_cons_ne (k k' : String) (v : Option String)
    (l : List (String × Option String)) (h : ¬ k = k') :
    objGet ((k, v) :: l) k' = objGet l k' := by
  simp [objGet, List.filter_cons, h]

theorem objGet_cons_self (k : String) (v : Option String)
    (l : List (String × Option String)) (h : ∀ q ∈ l, ¬ q.1 = k) :
    objGet ((k, v) :: l) k = some v := by
  have hnil : l.filter (fun p => p.1 = k) = [] :=
    List.filter_eq_nil_iff.mpr (by simpa using h)
  simp [objGet, List.filter_cons, hnil]

/-- Every key written by the front walk is the name of some field of the
walked reference. -/
theorem walkFront_assign_keys (fs : List FieldSpec) (ks : List String) :
    ∀ q ∈ (walkFront fs ks).1, q.1 ∈ fs.map (fun f => f.name) := by
  induction fs generalizing ks with
  | nil => simp [walkFront]
  | cons f fs ih =>
    by_cases hf : f.multipleWords = true
    · simp [walkFront, hf]
    · simp only [Bool.not_eq_true] at hf
      intro q hq
      simp only [walkFront, hf, Bool.false_eq_true, if_false,
        List.mem_cons] at hq
      rcases hq with rfl | hq'
      · simp
      · simp only [List.map_cons, List.mem_cons]
        exact Or.inr (ih ks.tail q hq')

/-- Segments built by `_topic` for an all-non-multi-word reference are
dot-free: a dotted supplied value or constant trips the assert, and the
wildcard `*` contains no dot. -/
theorem buildSegments_dotfree (values : String → Option String) :
    ∀ (fs : List FieldSpec) (segs : List String),
    buildSegments fs values = some segs →
    (∀ f ∈ fs, f.multipleWords = false) →
    ∀ s ∈ segs, '.' ∉ s.toList := by
  intro fs
  induction fs with
  | nil =>
    intro segs hb _
    simp only [buildSegments, Option.some.injEq] at hb
    subst hb
    simp
  | cons f fs ih =>
    intro segs hb hm
    have hf : f.multipleWords = false := hm f (List.mem_cons_self f fs)
    simp only [buildSegments] at hb
    cases h1 : buildSegment f values with
    | none => rw [h1] at hb; simp at hb
    | some s =>
      cases h2 : buildSegments fs values with
      | none => rw [h1, h2] at hb; simp at hb
      | some ss =>
        rw [h1, h2] at hb
        simp only [Option.some.injEq] at hb
        subst hb
        intro x hx
        rcases List.mem_cons.mp hx with rfl | hx'
        · -- head segment is dot-free
          simp only [buildSegment, hf] at h1
          cases hv : topicValueOf f values with
          | some v =>
            rw [hv] at h1
            simp only [Bool.false_or] at h1
            by_cases hc : v.toList.contains '.' = true
            · rw [hc] at h1; simp at h1
            · have hveq : v = x := by
                rw [Bool.not_eq_true] at hc
                rw [hc] at h1
                simpa using h1
              intro hmem
              exact hc (by
                subst hveq
                exact List.elem_iff.mpr hmem)
          | none =>
            rw [hv] at h1
            simp only [Option.some.injEq] at h1
            subst h1
            decide
        · exact ih ss h2 (fun g hg => hm g (List.mem_cons_of_mem _ hg)) x hx'

/-- The front walk over segments built by `_topic`, for an
all-non-multi-word reference with pairwise distinct field names and a
supplied value for every non-constant field: the walk consumes the whole
reference (no multi-word stop) and the resulting object maps every
non-constant field name to its supplied value. -/
theorem walkFront_build (values : String → Option String) :
    ∀ (fs : List FieldSpec) (segs : List String),
    buildSegments fs values = some segs →
    (∀ f ∈ fs, f.multipleWords = false) →
    (fs.map (fun f => f.name)).Nodup →
    (∀ f ∈ fs, f.constant = none → (values f.name).isSome = true) →
    (walkFront fs segs).2.2 = [] ∧
    ∀ f ∈ fs, f.constant = none →
      objGet (walkFront fs segs).1 f.name = some (values f.name) := by
  intro fs
  induction fs with
  | nil =>
    intro segs hb _ _ _
    exact ⟨rfl, by simp⟩
  | cons f fs ih =>
    intro segs hb hm hnd hvals
    have hf : f.multipleWords = false := hm f (List.mem_cons_self f fs)
    simp only [buildSegments] at hb
    obtain ⟨s, ss, hs, hss, rfl⟩ :
        ∃ s ss, buildSegment f values = some s ∧
          buildSegments fs values = some ss ∧ segs = s :: ss := by
      cases h1 : buildSegment f values with
      | none => rw [h1] at hb; simp at hb
      | some s =>
        cases h2 : buildSegments fs values with
        | none => rw [h1, h2] at hb; simp at hb
        | some ss =>
          rw [h1, h2] at hb
          simp only [Option.some.injEq] at hb
          exact ⟨s, ss, rfl, rfl, hb.symm⟩
    have hnd' : (fs.map (fun f => f.name)).Nodup ∧
        f.name ∉ fs.map (fun f => f.name) := by
      rw [List.map_cons, List.nodup_cons] at hnd
      exact ⟨hnd.2, hnd.1⟩
    obtain ⟨hrest, hlook⟩ := ih ss hss
      (fun g hg => hm g (List.mem_cons_of_mem _ hg))
      hnd'.1
      (fun g hg hgc => hvals g (List.mem_cons_of_mem _ hg) hgc)
    have hwalk : walkFront (f :: fs) (s :: ss) =
        ((f.name, some s) :: (walkFront fs ss).1, (walkFront fs ss).2) := by
      simp [walkFront, hf]
    constructor
    · rw [hwalk]
      exact hrest
    · intro g hg hgc
      rcases List.mem_cons.mp hg with rfl | hg'
      · -- the head field: its assignment is the head segment, which is
        -- exactly the supplied value
        rw [hwalk]
        have hnot : ∀ q ∈ (walkFront fs ss).1, ¬ q.1 = g.name := by
          intro q hq hqe
          exact hnd'.2 (hqe ▸ walkFront_assign_keys fs ss q hq)
        rw [objGet_cons_self _ _ _ hnot]
        -- buildSegment for a non-constant field with a supplied value
        -- returns that value
        simp only [buildSegment, topicValueOf, hgc, hf] at hs
        cases hv : values g.name with
        | none =>
          exfalso
          have hiso := hvals g (List.mem_cons_self g fs) hgc
          rw [hv] at hiso
          simp at hiso
        | some v =>
          rw [hv] at hs
          simp only [Bool.false_or] at hs
          by_cases hc : v.toList.contains '.' = true
          · rw [hc] at hs
            exact absurd hs (by simp)
          · rw [Bool.not_eq_true] at hc
            rw [hc] at hs
            simp at hs
            rw [hs]
      · rw [hwalk]
        have hne : ¬ f.name = g.name := by
          intro he
          exact hnd'.2 (he ▸ List.mem_map_of_mem (fun f => f.name) hg')
        rw [objGet_cons_ne _ _ _ _ hne]
        exact hlook g hg' hgc

/-- C6 counterexample: the claim fails when field names repeat.  The
reference has no multi-word field; the single non-constant field `"a"`
is supplied the dot-free value `"v"`; the pattern builds to `"v.c"`; but
parsing it back maps `"a"` to the trailing constant's segment `"c"`, not
to the supplied `"v"` — the later JS object write shadows the earlier
one. -/
theorem c6_counterexample :
    topicPattern [⟨"a", false, none⟩, ⟨"a", false, some "c"⟩]
      (fun n => if n = "a" then some "v" else none) = some "v.c" ∧
    parseRoutingKey [⟨"a", false, none⟩, ⟨"a", false, some "c"⟩] "v.c" =
      some [("a", some "v"), ("a", some "c")] ∧
    objGet [("a", some "v"), ("a", some "c")] "a" = some (some "c") ∧
    ((fun n => if n = "a" then some "v" else none) "a" = some "v") ∧
    ((some (some "c") : Option (Option String)) ≠ some (some "v")) := by
  refine ⟨by decide, by decide, by decide, rfl, by decide⟩

/-- C6 (amended): for every FieldSpec sequence with no multi-word field
and *pairwise distinct field names*, and every assignment of dot-free
string values to all of its non-constant fields, parsing the pattern
built by `_topic` from that sequence and those values yields a mapping
that assigns to every non-constant field exactly the value supplied for
it.  (`hbuild` captures "the pattern built": a dotted constant would make
`_topic` throw and no pattern exist; a dotted supplied value likewise, so
dot-freeness of the supplied values is subsumed by `hbuild`.) -/
theorem c6_roundtrip_amended (ref : List FieldSpec)
    (values : String → Option String) (p : String)
    (hmulti : ∀ f ∈ ref, f.multipleWords = false)
    (hnodup : (ref.map (fun f => f.name)).Nodup)
    (hvals : ∀ f ∈ ref, f.constant = none → (values f.name).isSome = true)
    (hbuild : topicPattern ref values = some p) :
    ∃ m, parseRoutingKey ref p = some m ∧
      ∀ f ∈ ref, f.constant = none →
        objGet m f.name = some (values f.name) := by
  obtain ⟨segs, hsegs, hp⟩ :
      ∃ segs, buildSegments ref values = some segs ∧ jsJoin '.' segs = p := by
    simpa [topicPattern, Option.map_eq_some'] using hbuild
  cases ref with
  | nil =>
    refine ⟨[], ?_, by simp⟩
    simp [parseRoutingKey, walkFront]
  | cons f0 fs0 =>
    have hne : segs ≠ [] := by
      simp only [buildSegments] at hsegs
      cases h1 : buildSegment f0 values with
      | none => rw [h1] at hsegs; simp at hsegs
      | some s =>
        cases h2 : buildSegments fs0 values with
        | none => rw [h1, h2] at hsegs; simp at hsegs
        | some ss =>
          rw [h1, h2] at hsegs
          simp only [Option.some.injEq] at hsegs
          rw [← hsegs]
          simp
    have hfree : ∀ s ∈ segs, '.' ∉ s.toList :=
      buildSegments_dotfree values (f0 :: fs0) segs hsegs hmulti
    have hkeys : jsSplit '.' p = segs := by
      rw [← hp]
      exact jsSplit_jsJoin '.' segs hne hfree
    obtain ⟨hrest, hlook⟩ :=
      walkFront_build values (f0 :: fs0) segs hsegs hmulti hnodup hvals
    refine ⟨(walkFront (f0 :: fs0) segs).1, ?_, hlook⟩
    simp only [parseRoutingKey, hkeys]
    rw [hrest]

/-- Witness for `c6_roundtrip_amended`: a constant field plus one
non-constant field round-trips its supplied value. -/
theorem c6_roundtrip_amended_witness :
    topicPattern [⟨"c0", false, some "myconst"⟩, ⟨"t", false, none⟩]
      (fun n => if n = "t" then some "val" else none) = some "myconst.val" ∧
    ∃ m, parseRoutingKey [⟨"c0", false, some "myconst"⟩, ⟨"t", false, none⟩]
        "myconst.val" = some m ∧
      ∀ f ∈ ([⟨"c0", false, some "myconst"⟩, ⟨"t", false, none⟩] :
          List FieldSpec),
        f.constant = none →
        objGet m f.name =
          some ((fun n => if n = "t" then some "val" else none) f.name) :=
  ⟨by decide,
   c6_roundtrip_amended
     [⟨"c0", false, some "myconst"⟩, ⟨"t", false, none⟩]
     (fun n => if n = "t" then some "val" else none)
     "myconst.val"
     (by decide) (by decide) (by decide) (by decide)⟩

end TCClient
